import Mathlib

/-!
Verification of the multi-pool investment engine (native-token pool).

The repository ships deployment scripts and behavioral tests for an on-chain
investment pool; the pool contract itself is not among the visible sources.
The definitions below are therefore modelled from the specification
(components 4.1-4.6), with the behavioral tests
(`test/ethereum/nativeTokenPool/1_invest.test.ts`) pinning observable details:
revert reason strings, the panic code raised by out-of-range ledger reads, and
the shape of the `Invested` event.

Addresses and token identifiers are modelled as `Nat`; currency amounts are
`Nat` wei. The external exchange and the fee transfer are modelled by an
explicit environment (`Env`); transactional (all-or-nothing) execution of the
hosting ledger is modelled by `investTxState`, which discards intermediate
state on any error.
-/

namespace MultiPool

/-- Modelled from the spec: the immutable construction-time configuration of a
pool (spec 3, PoolConfig). The entry asset is the native chain currency
throughout this development (the native-token pool exercised by the tests), so
`entryAsset`/`wrapOfNativeToken` are not represented. -/
structure PoolConfig where
  feeAddress : Nat
  investFeeBps : Nat
  successFeeBps : Nat
  minInvest : Nat
  tokens : List Nat
  feeTiers : List Nat
  distributions : List Nat
deriving Repr, DecidableEq

/-- Modelled from the spec: one per-user investment record (spec 3,
Investment). -/
structure Investment where
  active : Bool
  inputIsNativeToken : Bool
  receivedCurrency : Nat
  tokenBalances : List Nat
deriving Repr, DecidableEq

/-- Modelled from the spec: pool-wide aggregate counters (spec 3,
PoolAggregates). -/
structure PoolAggregates where
  totalReceivedCurrency : Nat
  totalInvestFee : Nat
  poolTokensBalances : List Nat
deriving Repr, DecidableEq

/-- Modelled from the spec: the pool's persisted state — pause flag, aggregate
counters, the append-only ledger of `(user, investment)` pairs, the fee
recipient's entry-currency balance, and the pool's actual on-chain balance of
each target token. -/
structure PoolState where
  paused : Bool
  aggregates : PoolAggregates
  ledger : List (Nat × Investment)
  feeBalance : Nat
  chainTokenBalances : List Nat
deriving Repr, DecidableEq

/-- Modelled from the spec error taxonomy (spec 7): caller errors and external
failures carried as distinguishable kinds, plus Solidity-style panics, which
the tests treat as generic faults (`revertedWithPanic`) as opposed to
require-style reverts with a reason string (`revertedWith`). -/
inductive PoolError where
  | poolPaused
  | amountTooSmall
  | valueMismatch
  | transferError
  | swapFailure
  | panic (code : Nat)
deriving Repr, DecidableEq

/-- A Solidity panic is a generic fault; require-style reverts carry a
distinguishable reason string. -/
def PoolError.isGenericFault : PoolError → Bool
  | .panic _ => true
  | _ => false

/-- Reason strings as asserted by the tests (`revertedWith`). Panics have no
reason string; the tests assert on their numeric code instead. -/
def PoolError.message : PoolError → String
  | .poolPaused => "Pausable: paused"
  | .amountTooSmall => "amount is too small"
  | .valueMismatch => "wrong value"
  | .transferError => "transfer failed"
  | .swapFailure => "swap failed"
  | .panic c => "panic code " ++ toString c

/-- Modelled from the spec and the test's `withArgs` assertion: the `Invested`
event carries the investor, the net amount, a per-token derived value left
unconstrained by the test (`anyValue`, modelled as the acquired token
amounts), and — pinned by the test to `[50, 25, 25]` — the configured
distribution weights. -/
structure InvestedEvent where
  investor : Nat
  amount : Nat
  tokenBalances : List Nat
  tokenDistributions : List Nat
deriving Repr, DecidableEq

/-- Modelled from the spec: the external environment of one transaction — the
swap router (per token index, amount in ↦ amount out, or failure) and whether
the invest-fee transfer to the fee recipient completes. -/
structure Env where
  feeTransferOk : Bool
  swap : Nat → Nat → Option Nat

/-- Element-wise addition of two balance lists. -/
def addBalances (a b : List Nat) : List Nat :=
  List.zipWith (· + ·) a b

/-- Modelled from the spec (4.4 Distribution Engine): for each token index,
compute the truncating share `netAmount * distributions[i] / 100`, swap it via
the environment, credit the pool's on-chain balance of that token, and record
the amount acquired. Fails if any swap fails or if the list lengths
mismatch. -/
def distributeFrom (env : Env) (netAmount : Nat) :
    Nat → List Nat → List Nat → Option (List Nat × List Nat)
  | _, [], chain => some ([], chain)
  | _, _ :: _, [] => none
  | idx, d :: ds, c :: cs =>
    match env.swap idx (netAmount * d / 100) with
    | none => none
    | some out =>
      match distributeFrom env netAmount (idx + 1) ds cs with
      | none => none
      | some (tbs, rest) => some (out :: tbs, (c + out) :: rest)

/-- Modelled from the spec: run the Distribution Engine over all tokens,
returning the acquired amounts and the updated on-chain token balances. -/
def distribute (env : Env) (netAmount : Nat) (dists chain : List Nat) :
    Option (List Nat × List Nat) :=
  distributeFrom env netAmount 0 dists chain

/-- Modelled from the spec (4.2 Fee Engine): the invest fee, by truncating
integer division. -/
def feeOf (cfg : PoolConfig) (amount : Nat) : Nat :=
  amount * cfg.investFeeBps / 100

/-- Modelled from the spec (4.2 Fee Engine): the net amount actually
distributed, `grossAmount - investFeeAmount`. -/
def netOf (cfg : PoolConfig) (amount : Nat) : Nat :=
  amount - feeOf cfg amount

/-- Modelled from the spec: the Investment record appended by a successful
invest — `active` true, paid in native currency, net amount received, acquired
token amounts. -/
def mkInvestment (netAmount : Nat) (tbs : List Nat) : Investment :=
  { active := true
    inputIsNativeToken := true
    receivedCurrency := netAmount
    tokenBalances := tbs }

/-- Modelled from the spec (4.5 step 5-6): append the new record to the
caller's sequence, fold the fee into the fee recipient's balance, and update
every aggregate counter. -/
def applyInvestment (s : PoolState) (caller netAmount investFee : Nat)
    (tbs newChain : List Nat) : PoolState :=
  { paused := s.paused
    aggregates :=
      { totalReceivedCurrency := s.aggregates.totalReceivedCurrency + netAmount
        totalInvestFee := s.aggregates.totalInvestFee + investFee
        poolTokensBalances := addBalances s.aggregates.poolTokensBalances tbs }
    ledger := s.ledger ++ [(caller, mkInvestment netAmount tbs)]
    feeBalance := s.feeBalance + investFee
    chainTokenBalances := newChain }

/-- Modelled from the spec (4.5 Investment Ledger, `invest` steps 1-7): gate
check, minimum-amount check, attached-value check, fee deduction and transfer,
distribution, ledger append, aggregate update, event emission. Any failure
surfaces as a distinguishable `PoolError`. -/
def investInner (cfg : PoolConfig) (env : Env) (s : PoolState)
    (caller amount value : Nat) : Except PoolError (PoolState × InvestedEvent) :=
  if s.paused then .error .poolPaused
  else if amount < cfg.minInvest then .error .amountTooSmall
  else if value ≠ amount then .error .valueMismatch
  else if env.feeTransferOk = false then .error .transferError
  else
    match distribute env (netOf cfg amount) cfg.distributions s.chainTokenBalances with
    | none => .error .swapFailure
    | some (tbs, newChain) =>
      .ok (applyInvestment s caller (netOf cfg amount) (feeOf cfg amount) tbs newChain,
           { investor := caller
             amount := netOf cfg amount
             tokenBalances := tbs
             tokenDistributions := cfg.distributions })

/-- Modelled from the spec (5): the transactional semantics of the hosting
ledger — a failed invest rolls back to the pre-call state, a successful one
commits the new state. -/
def investTxState (cfg : PoolConfig) (env : Env) (s : PoolState)
    (caller amount value : Nat) : PoolState :=
  match investInner cfg env s caller amount value with
  | .ok (s2, _) => s2
  | .error _ => s

/-- Modelled from the spec (6): the bare native-currency receive path is
`invest` with the attached payment as both argument and payment. -/
def receive (cfg : PoolConfig) (env : Env) (s : PoolState)
    (caller value : Nat) : Except PoolError (PoolState × InvestedEvent) :=
  investInner cfg env s caller value value

/-- Modelled from the spec: read-only full ordered history of one user. -/
def investmentsByUser (s : PoolState) (user : Nat) : List Investment :=
  (s.ledger.filter (fun p => p.1 == user)).map Prod.snd

/-- Modelled from the spec and the test: read-only single-record lookup. The
test pins the out-of-range failure to Solidity panic 0x32 (= 50, array access
out of bounds), a generic fault, not a require-style revert. -/
def investmentByUser (s : PoolState) (user index : Nat) :
    Except PoolError Investment :=
  let l := investmentsByUser s user
  if h : index < l.length then .ok (l.get ⟨index, h⟩)
  else .error (.panic 50)

/-- Modelled from the spec: read-only aggregate query. -/
def poolData (s : PoolState) : PoolAggregates :=
  s.aggregates

/-- Modelled from the spec (4.6 Access/Pause Gate): transition to Paused. -/
def pause (s : PoolState) : PoolState :=
  { s with paused := true }

/-- Modelled from the spec (4.6 Access/Pause Gate): transition to Active. -/
def unpause (s : PoolState) : PoolState :=
  { s with paused := false }

/-- Set the pause flag to an arbitrary value, for stating pause-independence
of read-only queries. -/
def setPaused (s : PoolState) (b : Bool) : PoolState :=
  { s with paused := b }

/-- Modelled from the spec: the freshly constructed pool over `n` target
tokens — Active, empty ledger, all counters and balances zero. -/
def initState (n : Nat) : PoolState :=
  { paused := false
    aggregates :=
      { totalReceivedCurrency := 0
        totalInvestFee := 0
        poolTokensBalances := List.replicate n 0 }
    ledger := []
    feeBalance := 0
    chainTokenBalances := List.replicate n 0 }

/-- One invest request: caller, gross amount argument, attached payment. -/
structure InvestCall where
  caller : Nat
  amount : Nat
  value : Nat
deriving Repr, DecidableEq

/-- Run a sequence of invest transactions under the ledger's transactional
semantics. -/
def runCalls (cfg : PoolConfig) (env : Env) :
    List InvestCall → PoolState → PoolState
  | [], s => s
  | c :: cs, s =>
    runCalls cfg env cs (investTxState cfg env s c.caller c.amount c.value)

/-- Element-wise sum of the acquired token amounts over all ledger records. -/
def ledgerTokenSums (n : Nat) (l : List (Nat × Investment)) : List Nat :=
  l.foldl (fun acc p => addBalances acc p.2.tokenBalances) (List.replicate n 0)

/-- Sum over all ledger records of the amount of token `i` that record
acquired. -/
def sumTokenBalancesAt (l : List (Nat × Investment)) (i : Nat) : Nat :=
  (l.map (fun p => p.2.tokenBalances.getD i 0)).sum

/-- The token-accounting invariant: the aggregate per-token balances equal the
element-wise ledger sums and the pool's actual on-chain balances, and every
balance list has the configured length. -/
def TokenInvariant (n : Nat) (s : PoolState) : Prop :=
  s.aggregates.poolTokensBalances = ledgerTokenSums n s.ledger ∧
  s.chainTokenBalances = s.aggregates.poolTokensBalances ∧
  s.aggregates.poolTokensBalances.length = n ∧
  ∀ p ∈ s.ledger, p.2.tokenBalances.length = n

/-- Concrete configuration mirroring the test fixture: 10 percent invest fee,
three target tokens with weights 50/25/25. -/
def cfgEx : PoolConfig :=
  { feeAddress := 1
    investFeeBps := 10
    successFeeBps := 10
    minInvest := 1
    tokens := [11, 12, 13]
    feeTiers := [100, 100, 100]
    distributions := [50, 25, 25] }

/-- Concrete environment in which the fee transfer and every swap succeed,
each swap returning its input amount. -/
def envEx : Env :=
  { feeTransferOk := true
    swap := fun _ a => some a }

/-- A state with exactly one recorded investment, by user 7 with gross 100. -/
def sEx : PoolState :=
  investTxState cfgEx envEx (initState 3) 7 100 100

/-- C1: every failing invest — whatever the error kind — rolls the
transaction back: the committed state, hence the per-user ledgers, the
aggregates, the fee recipient's balance and the pool's token balances, is
exactly the pre-call state. -/
theorem invest_failure_rolls_back (cfg : PoolConfig) (env : Env) (s : PoolState)
    (caller amount value : Nat) (e : PoolError)
    (h : investInner cfg env s caller amount value = .error e) :
    investTxState cfg env s caller amount value = s ∧
    (∀ u, investmentsByUser (investTxState cfg env s caller amount value) u
        = investmentsByUser s u) ∧
    poolData (investTxState cfg env s caller amount value) = poolData s ∧
    (investTxState cfg env s caller amount value).feeBalance = s.feeBalance ∧
    (investTxState cfg env s caller amount value).chainTokenBalances
      = s.chainTokenBalances := by
  have hst : investTxState cfg env s caller amount value = s := by
    simp [investTxState, h]
  exact ⟨hst, fun u => by rw [hst], by rw [hst], by rw [hst], by rw [hst]⟩

/-- Witness for C1: a paused pool rejects an invest and the state is rolled
back unchanged. -/
theorem invest_failure_rolls_back_witness :
    investTxState cfgEx envEx (pause (initState 3)) 7 100 100
      = pause (initState 3) :=
  (invest_failure_rolls_back cfgEx envEx (pause (initState 3)) 7 100 100
    .poolPaused (by rfl)).1

/-- C7: while the pool is Paused, both mutating entry points — `invest` and
the bare native-currency receive path — fail with `PoolPaused` and leave the
committed state unchanged, while every read-only query is independent of the
pause flag, and an in-range ledger lookup still succeeds. -/
theorem paused_blocks_mutations (cfg : PoolConfig) (env : Env) (s : PoolState)
    (caller amount value : Nat) (h : s.paused = true) :
    investInner cfg env s caller amount value = .error .poolPaused ∧
    receive cfg env s caller value = .error .poolPaused ∧
    investTxState cfg env s caller amount value = s ∧
    (∀ b, poolData (setPaused s b) = poolData s) ∧
    (∀ b u, investmentsByUser (setPaused s b) u = investmentsByUser s u) ∧
    (∀ b u i, investmentByUser (setPaused s b) u i = investmentByUser s u i) ∧
    (∀ b u i, i < (investmentsByUser s u).length →
      ∃ inv, investmentByUser (setPaused s b) u i = .ok inv) := by
  have hinv : investInner cfg env s caller amount value = .error .poolPaused := by
    simp [investInner, h]
  have hrcv : receive cfg env s caller value = .error .poolPaused := by
    simp [receive, investInner, h]
  have hro : ∀ b u, investmentsByUser (setPaused s b) u = investmentsByUser s u := by
    intro b u
    simp [investmentsByUser, setPaused]
  refine ⟨hinv, hrcv, by simp [investTxState, hinv], fun b => by simp [poolData, setPaused],
    hro, fun b u i => by simp [investmentByUser, hro], fun b u i hi => ?_⟩
  refine ⟨(investmentsByUser s u).get ⟨i, hi⟩, ?_⟩
  rw [show investmentByUser (setPaused s b) u i = investmentByUser s u i from by
    simp [investmentByUser, hro]]
  exact dif_pos hi

/-- Witness for C7: pausing the fresh pool makes `invest` fail with
`PoolPaused`. -/
theorem paused_blocks_mutations_witness :
    investInner cfgEx envEx (pause (initState 3)) 7 100 100
      = .error .poolPaused :=
  (paused_blocks_mutations cfgEx envEx (pause (initState 3)) 7 100 100 rfl).1

/-- C8: in an unpaused pool, a gross amount strictly below `minInvest` makes
both `invest` and the bare receive path fail with `AmountTooSmall`, and the
committed aggregates (indeed the whole state) are unchanged. -/
theorem small_amount_rejected (cfg : PoolConfig) (env : Env) (s : PoolState)
    (caller amount value : Nat) (hp : s.paused = false)
    (hlt : amount < cfg.minInvest) :
    investInner cfg env s caller amount value = .error .amountTooSmall ∧
    receive cfg env s caller amount = .error .amountTooSmall ∧
    poolData (investTxState cfg env s caller amount value) = poolData s ∧
    investTxState cfg env s caller amount value = s := by
  have hinv : investInner cfg env s caller amount value = .error .amountTooSmall := by
    simp [investInner, hp, hlt]
  have hst : investTxState cfg env s caller amount value = s := by
    simp [investTxState, hinv]
  exact ⟨hinv, by simp [receive, investInner, hp, hlt], by rw [hst], hst⟩

/-- Witness for C8: sending gross 0 to a pool with `minInvest = 1` fails with
`AmountTooSmall` and leaves the state unchanged. -/
theorem small_amount_rejected_witness :
    investInner cfgEx envEx (initState 3) 7 0 0 = .error .amountTooSmall :=
  (small_amount_rejected cfgEx envEx (initState 3) 7 0 0 rfl (by decide)).1

/-- C9: in an unpaused pool, an invest whose gross amount passes the minimum
check but whose attached payment differs from the gross argument fails with
`ValueMismatch`, and the committed state is unchanged. -/
theorem value_mismatch_rejected (cfg : PoolConfig) (env : Env) (s : PoolState)
    (caller amount value : Nat) (hp : s.paused = false)
    (hmin : cfg.minInvest ≤ amount) (hne : value ≠ amount) :
    investInner cfg env s caller amount value = .error .valueMismatch ∧
    investTxState cfg env s caller amount value = s := by
  have hinv : investInner cfg env s caller amount value = .error .valueMismatch := by
    simp [investInner, hp, Nat.not_lt.mpr hmin, hne]
  exact ⟨hinv, by simp [investTxState, hinv]⟩

/-- Witness for C9: attaching payment 2 to `invest(1)` fails with
`ValueMismatch`. -/
theorem value_mismatch_rejected_witness :
    investInner cfgEx envEx (initState 3) 7 1 2 = .error .valueMismatch :=
  (value_mismatch_rejected cfgEx envEx (initState 3) 7 1 2 rfl (by decide)
    (by decide)).1

/-- C10: for every index inside the user's recorded sequence, the
single-record lookup returns exactly that element of the full-history
query — the identical `Investment` record, all fields included. -/
theorem investmentByUser_agrees_with_list (s : PoolState) (user index : Nat)
    (h : index < (investmentsByUser s user).length) :
    investmentByUser s user index
      = .ok ((investmentsByUser s user).get ⟨index, h⟩) := by
  simp only [investmentByUser]
  exact dif_pos h

/-- Witness for C10: in a pool where user 7 invested once, the single-record
lookup at index 0 agrees with the list query. -/
theorem investmentByUser_agrees_with_list_witness :
    investmentByUser sEx 7 0
      = .ok ((investmentsByUser sEx 7).get ⟨0, by decide⟩) :=
  investmentByUser_agrees_with_list sEx 7 0 (by decide)

/-- Characterization of a successful invest: every gate passed, and the
committed state and emitted event have the shape produced by
`applyInvestment` on the distribution result. -/
theorem investInner_ok_shape (cfg : PoolConfig) (env : Env) (s : PoolState)
    (caller amount value : Nat) (s2 : PoolState) (ev : InvestedEvent)
    (h : investInner cfg env s caller amount value = .ok (s2, ev)) :
    s.paused = false ∧ cfg.minInvest ≤ amount ∧ value = amount ∧
    env.feeTransferOk = true ∧
    ∃ tbs newChain,
      distribute env (netOf cfg amount) cfg.distributions s.chainTokenBalances
        = some (tbs, newChain) ∧
      s2 = applyInvestment s caller (netOf cfg amount) (feeOf cfg amount)
            tbs newChain ∧
      ev = { investor := caller
             amount := netOf cfg amount
             tokenBalances := tbs
             tokenDistributions := cfg.distributions } := by
  unfold investInner at h
  by_cases h1 : s.paused = true
  · rw [if_pos h1] at h
    exact absurd h (by simp)
  rw [if_neg h1] at h
  by_cases h2 : amount < cfg.minInvest
  · rw [if_pos h2] at h
    exact absurd h (by simp)
  rw [if_neg h2] at h
  by_cases h3 : value = amount
  case neg =>
    rw [if_pos h3] at h
    exact absurd h (by simp)
  rw [if_neg (not_not_intro h3)] at h
  by_cases h4 : env.feeTransferOk = false
  · rw [if_pos h4] at h
    exact absurd h (by simp)
  rw [if_neg h4] at h
  rcases hd : distribute env (netOf cfg amount) cfg.distributions
      s.chainTokenBalances with - | ⟨tbs, newChain⟩
  · rw [hd] at h
    exact absurd h (by simp)
  · rw [hd] at h
    simp only [Except.ok.injEq, Prod.mk.injEq] at h
    exact ⟨Bool.not_eq_true _ ▸ h1, Nat.not_lt.mp h2, h3,
      Bool.not_eq_false _ ▸ h4, tbs, newChain, rfl, h.1.symm, h.2.symm⟩

/-- C2 as stated is false: the successful investment of gross 101 at a
10 percent invest fee records net amount 91 (gross minus the truncated fee
101 * 10 / 100 = 10), while the claimed formula
grossAmount * (100 - investFeeBps) / 100 gives 90. -/
theorem invest_net_formula_counterexample :
    (investTxState cfgEx envEx (initState 3) 7 101 101).ledger.map
        (fun p => p.2.receivedCurrency) = [91] ∧
    101 * (100 - cfgEx.investFeeBps) / 100 = 90 ∧ (91 : Nat) ≠ 90 := by
  exact ⟨by decide, by decide, by decide⟩

/-- C2 amended: for every successful investment, the recorded net amount is
grossAmount minus the truncated invest fee, netAmount = grossAmount -
grossAmount * investFeeBps / 100 (which equals
grossAmount * (100 - investFeeBps) / 100 only when 100 divides
grossAmount * investFeeBps), and the fee recipient's entry-currency balance
increases by exactly grossAmount - netAmount. -/
theorem invest_fee_accounting (cfg : PoolConfig) (env : Env) (s : PoolState)
    (caller amount value : Nat) (s2 : PoolState) (ev : InvestedEvent)
    (hfee : cfg.investFeeBps ≤ 100)
    (h : investInner cfg env s caller amount value = .ok (s2, ev)) :
    ∃ inv tbs,
      s2.ledger = s.ledger ++ [(caller, inv)] ∧
      inv = mkInvestment (amount - amount * cfg.investFeeBps / 100) tbs ∧
      inv.receivedCurrency = amount - amount * cfg.investFeeBps / 100 ∧
      s2.feeBalance = s.feeBalance + (amount - inv.receivedCurrency) := by
  obtain ⟨-, -, -, -, tbs, newChain, hd, hs2, hev⟩ :=
    investInner_ok_shape cfg env s caller amount value s2 ev h
  subst hs2
  have hle : feeOf cfg amount ≤ amount := by
    have h1 : amount * cfg.investFeeBps ≤ amount * 100 :=
      Nat.mul_le_mul_left amount hfee
    calc amount * cfg.investFeeBps / 100 ≤ amount * 100 / 100 :=
          Nat.div_le_div_right h1
      _ = amount := Nat.mul_div_cancel amount (by norm_num)
  refine ⟨mkInvestment (netOf cfg amount) tbs, tbs, rfl, rfl, rfl, ?_⟩
  show s.feeBalance + feeOf cfg amount
      = s.feeBalance + (amount - netOf cfg amount)
  rw [netOf, Nat.sub_sub_self hle]

/-- Witness data for the fee-accounting and event theorems: the state
committed by user 7 investing gross 100 into the example pool. -/
def s2Ex : PoolState :=
  { paused := false
    aggregates :=
      { totalReceivedCurrency := 90
        totalInvestFee := 10
        poolTokensBalances := [45, 22, 22] }
    ledger := [(7, mkInvestment 90 [45, 22, 22])]
    feeBalance := 10
    chainTokenBalances := [45, 22, 22] }

/-- Witness data: the event emitted by user 7 investing gross 100 into the
example pool. -/
def evEx : InvestedEvent :=
  { investor := 7
    amount := 90
    tokenBalances := [45, 22, 22]
    tokenDistributions := [50, 25, 25] }

/-- Witness for the amended C2: user 7 invests gross 100 at a 10 percent fee;
the recorded net amount is 90 and the fee recipient gains 10. -/
theorem invest_fee_accounting_witness :
    ∃ inv tbs,
      s2Ex.ledger = (initState 3).ledger ++ [(7, inv)] ∧
      inv = mkInvestment (100 - 100 * cfgEx.investFeeBps / 100) tbs ∧
      inv.receivedCurrency = 100 - 100 * cfgEx.investFeeBps / 100 ∧
      s2Ex.feeBalance = (initState 3).feeBalance + (100 - inv.receivedCurrency) :=
  invest_fee_accounting cfgEx envEx (initState 3) 7 100 100 s2Ex evEx
    (by decide) (by rfl)

/-- C4 as stated is false: an out-of-range ledger lookup fails with the
Solidity array-access panic (code 0x32 = 50) — a generic fault under the
tests' own taxonomy (`revertedWithPanic`), not a distinguished recoverable
error kind. -/
theorem index_out_of_range_generic_fault :
    investmentByUser sEx 7 1 = .error (.panic 50) ∧
    PoolError.isGenericFault (.panic 50) = true := by
  exact ⟨by rfl, by rfl⟩

/-- C4 amended: for every index at or beyond the length of the user's
investment sequence, the lookup fails with the array-access-out-of-bounds
panic (code 0x32), and in particular never returns a default or zeroed
record. -/
theorem investmentByUser_out_of_range (s : PoolState) (user index : Nat)
    (h : (investmentsByUser s user).length ≤ index) :
    investmentByUser s user index = .error (.panic 50) ∧
    ∀ inv, investmentByUser s user index ≠ .ok inv := by
  have h1 : investmentByUser s user index = .error (.panic 50) := by
    simp only [investmentByUser]
    exact dif_neg (Nat.not_lt.mpr h)
  exact ⟨h1, fun inv hc => by rw [h1] at hc; exact Except.noConfusion hc⟩

/-- Witness for the amended C4: user 7 has one recorded investment, so the
lookup at index 1 fails with panic code 0x32. -/
theorem investmentByUser_out_of_range_witness :
    investmentByUser sEx 7 1 = .error (.panic 50) ∧
    ∀ inv, investmentByUser sEx 7 1 ≠ .ok inv :=
  investmentByUser_out_of_range sEx 7 1 (by decide)

/-- C5 as stated is false: when user 7 invests gross 100, the emitted event's
fourth payload component is the configured weight split [50, 25, 25], while
the per-token amounts actually acquired and recorded are [45, 22, 22]. -/
theorem invested_event_payload_counterexample :
    ((investInner cfgEx envEx (initState 3) 7 100 100).toOption.map
        (fun r => (r.2.tokenDistributions,
                   r.1.ledger.map (fun p => p.2.tokenBalances))))
      = some ([50, 25, 25], [[45, 22, 22]]) ∧
    ([50, 25, 25] : List Nat) ≠ [45, 22, 22] := by
  exact ⟨by decide, by decide⟩

/-- C5 amended: every successful invest emits an event carrying the caller,
the net amount, the acquired per-token amounts (identical to the appended
ledger record's tokenBalances), and — as the final component — the configured
distribution weights rather than the acquired amounts. -/
theorem invested_event_fields (cfg : PoolConfig) (env : Env) (s : PoolState)
    (caller amount value : Nat) (s2 : PoolState) (ev : InvestedEvent)
    (h : investInner cfg env s caller amount value = .ok (s2, ev)) :
    ev.investor = caller ∧
    ev.amount = amount - amount * cfg.investFeeBps / 100 ∧
    s2.ledger = s.ledger ++ [(caller, mkInvestment ev.amount ev.tokenBalances)] ∧
    ev.tokenDistributions = cfg.distributions := by
  obtain ⟨-, -, -, -, tbs, newChain, hd, hs2, hev⟩ :=
    investInner_ok_shape cfg env s caller amount value s2 ev h
  subst hs2
  subst hev
  exact ⟨rfl, rfl, rfl, rfl⟩

/-- Witness for the amended C5: the event emitted when user 7 invests gross
100 carries investor 7, net amount 90, the acquired amounts, and the weight
split [50, 25, 25]. -/
theorem invested_event_fields_witness :
    evEx.investor = 7 ∧
    evEx.amount = 100 - 100 * cfgEx.investFeeBps / 100 ∧
    s2Ex.ledger = (initState 3).ledger
        ++ [(7, mkInvestment evEx.amount evEx.tokenBalances)] ∧
    evEx.tokenDistributions = cfgEx.distributions :=
  invested_event_fields cfgEx envEx (initState 3) 7 100 100 s2Ex evEx (by rfl)

/-- Adding balance lists of equal length preserves the length. -/
theorem addBalances_length (a b : List Nat) (h : a.length = b.length) :
    (addBalances a b).length = a.length := by
  simp [addBalances, h]

/-- Element-wise reading of an element-wise sum of equal-length lists. -/
theorem addBalances_getD (a : List Nat) :
    ∀ (b : List Nat) (i : Nat), a.length = b.length → i < a.length →
    (addBalances a b).getD i 0 = a.getD i 0 + b.getD i 0 := by
  induction a with
  | nil =>
    intro b i _ hi
    exact absurd hi (by simp)
  | cons x xs ih =>
    intro b i h hi
    cases b with
    | nil => simp at h
    | cons y ys =>
      cases i with
      | zero => simp [addBalances]
      | succ j =>
        have h2 : xs.length = ys.length := by simpa using h
        have hj : j < xs.length := by simpa using hi
        simpa [addBalances] using ih ys j h2 hj

/-- A successful distribution credits the pool's on-chain token balances by
exactly the acquired amounts, and returns one acquired amount per configured
weight. -/
theorem distributeFrom_eq_some (env : Env) (netAmount : Nat) :
    ∀ (ds : List Nat) (idx : Nat) (chain tbs rest : List Nat),
    ds.length = chain.length →
    distributeFrom env netAmount idx ds chain = some (tbs, rest) →
    rest = addBalances chain tbs ∧ tbs.length = ds.length := by
  intro ds
  induction ds with
  | nil =>
    intro idx chain tbs rest hlen h
    cases chain with
    | nil =>
      simp only [distributeFrom, Option.some.injEq, Prod.mk.injEq] at h
      obtain ⟨h1, h2⟩ := h
      subst h1
      subst h2
      exact ⟨rfl, rfl⟩
    | cons c cs => simp at hlen
  | cons d ds ih =>
    intro idx chain tbs rest hlen h
    cases chain with
    | nil => simp at hlen
    | cons c cs =>
      simp only [distributeFrom] at h
      rcases hsw : env.swap idx (netAmount * d / 100) with - | out
      · rw [hsw] at h
        exact absurd h (by simp)
      rw [hsw] at h
      rcases hrec : distributeFrom env netAmount (idx + 1) ds cs with - | ⟨tbs0, rest0⟩
      · rw [hrec] at h
        exact absurd h (by simp)
      rw [hrec] at h
      simp only [Option.some.injEq, Prod.mk.injEq] at h
      obtain ⟨htbs, hrest⟩ := h
      have hlen2 : ds.length = cs.length := by simpa using hlen
      obtain ⟨hr1, hr2⟩ := ih (idx + 1) cs tbs0 rest0 hlen2 hrec
      subst htbs
      subst hrest
      subst hr1
      exact ⟨by simp [addBalances], by simp [hr2]⟩

/-- The freshly constructed pool satisfies the token-accounting invariant. -/
theorem tokenInvariant_init (n : Nat) : TokenInvariant n (initState n) := by
  exact ⟨by simp [initState, ledgerTokenSums], rfl, by simp [initState],
    by simp [initState]⟩

/-- One invest transaction — successful or rolled back — preserves the
token-accounting invariant. -/
theorem investTxState_tokenInvariant (cfg : PoolConfig) (env : Env)
    (s : PoolState) (caller amount value n : Nat)
    (hn : cfg.distributions.length = n) (hinv : TokenInvariant n s) :
    TokenInvariant n (investTxState cfg env s caller amount value) := by
  obtain ⟨hpool, hchain, hlen, hrecords⟩ := hinv
  unfold investTxState
  rcases hcall : investInner cfg env s caller amount value with e | ⟨s2, ev⟩
  · exact ⟨hpool, hchain, hlen, hrecords⟩
  obtain ⟨-, -, -, -, tbs, newChain, hd, hs2, -⟩ :=
    investInner_ok_shape cfg env s caller amount value s2 ev hcall
  subst hs2
  have hdlen : cfg.distributions.length = s.chainTokenBalances.length := by
    rw [hn, hchain, hlen]
  obtain ⟨hnc, htlen⟩ := distributeFrom_eq_some env (netOf cfg amount)
    cfg.distributions 0 s.chainTokenBalances tbs newChain hdlen hd
  have htn : tbs.length = n := by rw [htlen, hn]
  refine ⟨?_, ?_, ?_, ?_⟩
  · show addBalances s.aggregates.poolTokensBalances tbs
      = ledgerTokenSums n
          (s.ledger ++ [(caller, mkInvestment (netOf cfg amount) tbs)])
    rw [ledgerTokenSums, List.foldl_append, List.foldl_cons, List.foldl_nil,
      ← ledgerTokenSums, hpool]
    rfl
  · show newChain = addBalances s.aggregates.poolTokensBalances tbs
    rw [hnc, hchain]
  · show (addBalances s.aggregates.poolTokensBalances tbs).length = n
    rw [addBalances_length _ _ (by rw [hlen, htn]), hlen]
  · intro p hp
    rcases List.mem_append.mp hp with h1 | h2
    · exact hrecords p h1
    · have hp2 : p = (caller, mkInvestment (netOf cfg amount) tbs) := by
        simpa using h2
      subst hp2
      simpa [mkInvestment] using htn

/-- Any sequence of invest transactions preserves the token-accounting
invariant. -/
theorem runCalls_tokenInvariant (cfg : PoolConfig) (env : Env) (n : Nat)
    (hn : cfg.distributions.length = n) :
    ∀ (calls : List InvestCall) (s : PoolState), TokenInvariant n s →
    TokenInvariant n (runCalls cfg env calls s) := by
  intro calls
  induction calls with
  | nil =>
    intro s h
    exact h
  | cons c cs ih =>
    intro s h
    exact ih _
      (investTxState_tokenInvariant cfg env s c.caller c.amount c.value n hn h)

/-- Reading index `i` of a replicated zero list gives zero. -/
theorem replicate_getD (n i : Nat) : (List.replicate n 0).getD i 0 = 0 := by
  induction n generalizing i with
  | zero => simp
  | succ m ih =>
    cases i with
    | zero => simp [List.replicate]
    | succ j => simp [List.replicate, ih j]

/-- Reading index `i` of the element-wise ledger fold gives the accumulator
entry plus the per-index sum over the records. -/
theorem ledgerTokenSums_getD (n i : Nat) (hi : i < n) :
    ∀ (l : List (Nat × Investment)) (acc : List Nat),
    acc.length = n → (∀ p ∈ l, p.2.tokenBalances.length = n) →
    (l.foldl (fun a p => addBalances a p.2.tokenBalances) acc).getD i 0
      = acc.getD i 0 + sumTokenBalancesAt l i := by
  intro l
  induction l with
  | nil =>
    intro acc _ _
    simp [sumTokenBalancesAt]
  | cons p ps ih =>
    intro acc hacc hrec
    have hp : p.2.tokenBalances.length = n := hrec p (by simp)
    have hlen2 : acc.length = p.2.tokenBalances.length := by rw [hacc, hp]
    have hacc2 : (addBalances acc p.2.tokenBalances).length = n := by
      rw [addBalances_length _ _ hlen2, hacc]
    have hstep := ih (addBalances acc p.2.tokenBalances) hacc2
      (fun q hq => hrec q (by simp [hq]))
    rw [List.foldl_cons, hstep,
      addBalances_getD acc p.2.tokenBalances i hlen2 (by rw [hacc]; exact hi)]
    simp only [sumTokenBalancesAt, List.map_cons, List.sum_cons]
    omega

/-- C3: after any sequence of invest transactions from the fresh pool, every
aggregate per-token balance equals the sum of that token's acquired amounts
over all recorded investments, and equals the pool's actual on-chain balance
of that token. -/
theorem poolTokensBalances_invariant (cfg : PoolConfig) (env : Env)
    (calls : List InvestCall) (n i : Nat)
    (hn : cfg.distributions.length = n) (hi : i < n) :
    (runCalls cfg env calls
        (initState n)).aggregates.poolTokensBalances.getD i 0
      = sumTokenBalancesAt (runCalls cfg env calls (initState n)).ledger i ∧
    (runCalls cfg env calls
        (initState n)).aggregates.poolTokensBalances.getD i 0
      = (runCalls cfg env calls (initState n)).chainTokenBalances.getD i 0 := by
  obtain ⟨hpool, hchain, hlen, hrec⟩ :=
    runCalls_tokenInvariant cfg env n hn calls (initState n)
      (tokenInvariant_init n)
  constructor
  · rw [hpool, ledgerTokenSums,
      ledgerTokenSums_getD n i hi _ (List.replicate n 0) (by simp) hrec,
      replicate_getD]
    omega
  · rw [hchain]

/-- Witness for C3: after user 7 invests gross 100 into the example pool, the
aggregate balance of token 0 matches the ledger sum and the on-chain
balance. -/
theorem poolTokensBalances_invariant_witness :
    (runCalls cfgEx envEx [⟨7, 100, 100⟩]
        (initState 3)).aggregates.poolTokensBalances.getD 0 0
      = sumTokenBalancesAt
          (runCalls cfgEx envEx [⟨7, 100, 100⟩] (initState 3)).ledger 0 ∧
    (runCalls cfgEx envEx [⟨7, 100, 100⟩]
        (initState 3)).aggregates.poolTokensBalances.getD 0 0
      = (runCalls cfgEx envEx [⟨7, 100, 100⟩]
          (initState 3)).chainTokenBalances.getD 0 0 :=
  poolTokensBalances_invariant cfgEx envEx [⟨7, 100, 100⟩] 3 0 rfl
    (by decide)

/-- C6: two investors paying 90 and 9 units (in wei) of native currency in
sequence at a 10 percent invest fee produce
totalReceivedCurrency = 99 units * (100 - investFeeBps) / 100, and the ledger
holds two independent records, both active and both marked as paid in native
currency. -/
theorem two_investor_scenario :
    (runCalls cfgEx envEx
        [⟨7, 90000000000000000000, 90000000000000000000⟩,
         ⟨8, 9000000000000000000, 9000000000000000000⟩]
        (initState 3)).aggregates.totalReceivedCurrency
      = 99000000000000000000 * (100 - cfgEx.investFeeBps) / 100 ∧
    (runCalls cfgEx envEx
        [⟨7, 90000000000000000000, 90000000000000000000⟩,
         ⟨8, 9000000000000000000, 9000000000000000000⟩]
        (initState 3)).ledger.map
        (fun p => (p.1, p.2.active, p.2.inputIsNativeToken))
      = [(7, true, true), (8, true, true)] := by
  exact ⟨by decide, by decide⟩

end MultiPool
